import Mathlib

/-!
Verification development for the brainbase-kafka backend.

This file gives a shallow embedding of the core control logic of the
backend (the retry engines, the diff normalizer, the intent router, the
websocket action dispatch and its session gate) as executable Lean
definitions, translated from backend/agent/agent.py and backend/main.py,
and proves the stated properties about them.  External collaborators
(the LLM, the remote validation service, the line-level patch-apply
algorithm) are modelled as oracles/parameters, exactly at the call
boundaries the source uses.
-/

namespace Brainbase

/-! ## Python string primitives

List-of-Char models of the Python string operations used by the source:
str.strip / str.lstrip (no argument, Python whitespace set),
str.splitlines, the newline join, str.lower, prefix and suffix tests. -/

/-- Characters for which Python str.isspace holds; this is the set that
a no-argument str.strip / str.lstrip removes, and the set matched by the
regex class of whitespace. -/
def isPySpace (c : Char) : Bool :=
  decide (c = ' ' ∨ c = '\t' ∨ c = '\n' ∨ c = '\x0b' ∨ c = '\x0c' ∨ c = '\r' ∨
    c = '\x1c' ∨ c = '\x1d' ∨ c = '\x1e' ∨ c = '\x1f' ∨ c = '\x85' ∨ c = '\xa0' ∨
    c = ' ' ∨ (' ' ≤ c ∧ c ≤ ' ') ∨ c = ' ' ∨ c = ' ' ∨
    c = ' ' ∨ c = ' ' ∨ c = '　')

/-- Line boundaries recognised by Python str.splitlines. -/
def isLineBreak (c : Char) : Bool :=
  decide (c = '\n' ∨ c = '\r' ∨ c = '\x0b' ∨ c = '\x0c' ∨
    c = '\x1c' ∨ c = '\x1d' ∨ c = '\x1e' ∨ c = '\x85' ∨
    c = ' ' ∨ c = ' ')

/-- Python str.lstrip (no argument). -/
def pyLstrip (l : List Char) : List Char := l.dropWhile isPySpace

/-- Python str.rstrip (no argument). -/
def pyRstrip (l : List Char) : List Char := (l.reverse.dropWhile isPySpace).reverse

/-- Python str.strip (no argument). -/
def pyStrip (l : List Char) : List Char := pyRstrip (pyLstrip l)

/-- Worker for str.splitlines: accumulates the current line (reversed). -/
def pySplitlinesAux : List Char → List Char → List (List Char)
  | [], acc => if acc.isEmpty then [] else [acc.reverse]
  | '\r' :: '\n' :: rest, acc => acc.reverse :: pySplitlinesAux rest []
  | c :: rest, acc =>
    if isLineBreak c then acc.reverse :: pySplitlinesAux rest []
    else pySplitlinesAux rest (c :: acc)

/-- Python str.splitlines (keepends = False). -/
def pySplitlines (l : List Char) : List (List Char) := pySplitlinesAux l []

/-- Python newline join over a list of lines. -/
def joinNL : List (List Char) → List Char
  | [] => []
  | [l] => l
  | l :: l2 :: rest => l ++ '\n' :: joinNL (l2 :: rest)

/-- Python endswith for a single newline. -/
def endsWithNL (l : List Char) : Bool := l.getLast? = some '\n'

/-- Python str.lower on one character (ASCII case mapping, the range
exercised by the filename logic of the source); codepoints 65-90 are the
uppercase basic latin letters. -/
def pyLowerChar (c : Char) : Char :=
  if 65 ≤ c.toNat ∧ c.toNat ≤ 90 then Char.ofNat (c.toNat + 32) else c

/-- Python str.lower. -/
def pyLower (l : List Char) : List Char := l.map pyLowerChar

/-! ## strip_code_blocks (agent.py)

re.sub of the pattern matching three backticks followed by an optional
language tag and an optional newline, replaced by the empty string, then
str.strip. -/

def isAsciiLetter (c : Char) : Bool :=
  decide (('a' ≤ c ∧ c ≤ 'z') ∨ ('A' ≤ c ∧ c ≤ 'Z'))

/-- After a fence opener, the regex greedily eats letters then one
optional newline. -/
def dropFenceSuffix (l : List Char) : List Char :=
  match l.dropWhile isAsciiLetter with
  | '\n' :: r => r
  | r => r

/-- Left-to-right non-overlapping removal of every fence occurrence,
as performed by re.sub in strip_code_blocks.  The first argument is
fuel; each step consumes at least one character, so fuel equal to the
length of the text (as supplied by removeFences below) never runs out
and the zero-fuel equation is unreachable. -/
def removeFencesGo : Nat → List Char → List Char
  | 0, l => l
  | fuel + 1, '`' :: '`' :: '`' :: rest => removeFencesGo fuel (dropFenceSuffix rest)
  | fuel + 1, c :: rest => c :: removeFencesGo fuel rest
  | _ + 1, [] => []

def removeFences (l : List Char) : List Char := removeFencesGo l.length l

/-- agent.py strip_code_blocks: remove Markdown code fences, then strip. -/
def strip_code_blocks (l : List Char) : List Char := pyStrip (removeFences l)

/-- String-level wrapper for strip_code_blocks. -/
def strip_code_blocksS (s : String) : String := String.mk (strip_code_blocks s.data)

/-! ## preprocess_diff (agent.py)

The pure diff normalizer: drop fence lines, delete adjacent
remove-file / add-file header pairs, left-trim header lines, and
preserve one trailing newline iff the input had one. -/

/-- A line the normalizer drops: its stripped form begins with three
backticks. -/
def isFenceLine (l : List Char) : Bool :=
  ([ '`', '`', '`' ] : List Char).isPrefixOf (pyStrip l)

/-- line.startswith followed by a successful re.match of three dashes,
one space and a non-whitespace character: a remove-file header eligible
for pair deletion. -/
def remHeaderB (l : List Char) : Bool :=
  ([ '-', '-', '-', ' ' ] : List Char).isPrefixOf l &&
    match l.drop 4 with
    | c :: _ => ! isPySpace c
    | [] => false

/-- Same shape for an add-file header (three pluses). -/
def addHeaderB (l : List Char) : Bool :=
  ([ '+', '+', '+', ' ' ] : List Char).isPrefixOf l &&
    match l.drop 4 with
    | c :: _ => ! isPySpace c
    | [] => false

/-- The startswith test of the trimming step: three dashes, three
pluses, or a hunk-header marker. -/
def isMetaLine (t : List Char) : Bool :=
  ([ '-', '-', '-' ] : List Char).isPrefixOf t ||
  ([ '+', '+', '+' ] : List Char).isPrefixOf t ||
  ([ '@', '@' ] : List Char).isPrefixOf t

/-- Left-trim a line iff its left-trimmed form begins with a diff
metadata marker (remove-file, add-file or hunk header). -/
def trimIfMeta (l : List Char) : List Char :=
  if isMetaLine (pyLstrip l) then pyLstrip l else l

/-- The enumerate loop of preprocess_diff: skip both lines of an
adjacent remove-file / add-file header pair, left-trim metadata lines,
keep content lines verbatim. -/
def processLines : List (List Char) → List (List Char)
  | [] => []
  | [l] => [trimIfMeta l]
  | l :: l2 :: rest =>
    if remHeaderB l ∧ addHeaderB l2 then processLines rest
    else trimIfMeta l :: processLines (l2 :: rest)

/-- The line list preprocess_diff works on: splitlines with fence lines
removed. -/
def fenceFiltered (l : List Char) : List (List Char) :=
  (pySplitlines l).filter (fun x => ! isFenceLine x)

/-- agent.py preprocess_diff on character lists. -/
def preprocess_diff (diff : List Char) : List Char :=
  let lines := fenceFiltered diff
  let cleaned := joinNL (processLines lines)
  if endsWithNL diff ∧ ¬ endsWithNL cleaned then cleaned ++ ['\n'] else cleaned

/-- String-level wrapper for preprocess_diff. -/
def preprocess_diffS (s : String) : String := String.mk (preprocess_diff s.data)

/-- Index-carrying mirror of processLines, used to state which input
positions survive to the output.  Indices ride along unchanged; the line
payloads are transformed exactly as in processLines. -/
def processLinesIdx : List (Nat × List Char) → List (Nat × List Char)
  | [] => []
  | [(i, l)] => [(i, trimIfMeta l)]
  | (i, l) :: (j, l2) :: rest =>
    if remHeaderB l ∧ addHeaderB l2 then processLinesIdx rest
    else (i, trimIfMeta l) :: processLinesIdx ((j, l2) :: rest)

/-- Whether a line list contains an adjacent remove-file / add-file
header pair that a processLines pass would delete. -/
def hasAdjPair : List (List Char) → Bool
  | l :: l2 :: rest => (remHeaderB l && addHeaderB l2) || hasAdjPair (l2 :: rest)
  | _ => false

/-! ## The validation collaborator and generate_based_code (agent.py)

The LLM and the remote validation service are opaque collaborators; a
run of the retry loop is determined by what they answer in each round,
which we model as per-round events.  MAX_ITER is the bound from
agent.py. -/

/-- Maximum number of attempts for the validation loops (agent.py). -/
def MAX_ITER : Nat := 5

/-- Outcome of one call to validate_code: the request can raise
(requests.exceptions.RequestException), or deliver a JSON object with
optional status, error and converted_code fields. -/
inductive ValEvent where
  | requestError
  | result (status : Option String) (error : Option String)
      (converted_code : Option String)
deriving DecidableEq

/-- Outcome of one round of generate_based_code: the LLM invocation
raises, or returns raw text which is then stripped and validated. -/
inductive RoundEvent where
  | llmError
  | llmOk (raw : String) (val : ValEvent)
deriving DecidableEq

/-- What one generate_based_code run produces, plus how many
generation-collaborator calls and validation calls it made. -/
structure GenOutcome where
  result : String
  genCalls : Nat
  valCalls : Nat
deriving DecidableEq

/-- A validation event that does not report success: the request raised,
or the returned status is not the success status. -/
def valNotSuccess : ValEvent → Prop
  | .requestError => True
  | .result st _ _ => st ≠ some "success"

/-- The for-loop of generate_based_code: argument order is round index,
remaining rounds, last (stripped) candidate, generation calls so far,
validation calls so far. -/
def generateLoop (events : Nat → RoundEvent) :
    Nat → Nat → String → Nat → Nat → GenOutcome
  | _, 0, last, g, v => ⟨last, g, v⟩
  | i, fuel + 1, last, g, v =>
    match events i with
    | .llmError => ⟨last, g + 1, v⟩
    | .llmOk raw ve =>
      let cand := strip_code_blocksS raw
      match ve with
      | .requestError => generateLoop events (i + 1) fuel cand (g + 1) (v + 1)
      | .result st _ conv =>
        if st = some "success" then ⟨conv.getD cand, g + 1, v + 1⟩
        else generateLoop events (i + 1) fuel cand (g + 1) (v + 1)

/-- agent.py generate_based_code, as a function of the per-round
collaborator events: up to MAX_ITER rounds, feedback loop on failure,
immediate break on an LLM error, last candidate on exhaustion. -/
def generate_based_code (events : Nat → RoundEvent) : GenOutcome :=
  generateLoop events 0 MAX_ITER "" 0 0

/-! ## generate_based_diff (agent.py)

Same loop shape, but each round preprocesses the stripped diff, applies
it via the external patch-apply collaborator (a parameter), and only
validates the patched text when the patch applied. -/

/-- The dictionary generate_based_diff returns. -/
structure DiffResult where
  diff : String
  new_code : String
  old_code : String
deriving DecidableEq

/-- The for-loop of generate_based_diff: argument order is round index,
remaining rounds, last raw diff attempt, last successfully patched text.
llm i is none when the LLM invocation of round i raises. -/
def diffLoop (applyP : String → String → Except String String)
    (llm : Nat → Option String) (dval : Nat → ValEvent) (current_code : String) :
    Nat → Nat → String → String → DiffResult
  | _, 0, lastDiff, lastNew => ⟨lastDiff, lastNew, current_code⟩
  | i, fuel + 1, lastDiff, lastNew =>
    match llm i with
    | none => ⟨lastDiff, lastNew, current_code⟩
    | some raw =>
      let d := strip_code_blocksS raw
      match applyP current_code (preprocess_diffS d) with
      | .error _ => diffLoop applyP llm dval current_code (i + 1) fuel d lastNew
      | .ok newCode =>
        match dval i with
        | .requestError => diffLoop applyP llm dval current_code (i + 1) fuel d newCode
        | .result st _ conv =>
          if st = some "success" then ⟨d, conv.getD newCode, current_code⟩
          else diffLoop applyP llm dval current_code (i + 1) fuel d newCode

/-- agent.py generate_based_diff, as a function of the patch-apply
collaborator and the per-round LLM / validation events. -/
def generate_based_diff (applyP : String → String → Except String String)
    (llm : Nat → Option String) (dval : Nat → ValEvent)
    (current_code : String) : DiffResult :=
  diffLoop applyP llm dval current_code 0 MAX_ITER "" current_code

/-- The text produced by the last round among the first n whose diff
applied, or the unmodified base text when none applied: the value
last_generated_new_code holds after n full rounds with raw outputs
raw 0 .. raw (n-1). -/
def lastAppliedFrom (applyP : String → String → Except String String)
    (current_code : String) (raw : Nat → String) : Nat → Nat → String → String
  | _, 0, ln => ln
  | i, fuel + 1, ln =>
    lastAppliedFrom applyP current_code raw (i + 1) fuel
      (match applyP current_code (preprocess_diffS (strip_code_blocksS (raw i))) with
       | .ok t => t
       | .error _ => ln)

/-! ## classify_prompt_intent (agent.py) -/

/-- Outcome of the classification collaborator: the LLM call raised, the
(stripped) response was not parseable JSON, or it parsed to an object
with the given optional intent and description fields. -/
inductive ClassifyOutcome where
  | raised
  | unparseable
  | parsed (intent : Option String) (description : Option String)
deriving DecidableEq

/-- The dictionary classify_prompt_intent returns. -/
structure IntentResult where
  intent : Option String
  description : Option String
deriving DecidableEq

/-- agent.py classify_prompt_intent: accept a parsed result whose intent
names one of the two recognised kinds, otherwise fall back to EDIT_FILE;
every failure path returns exactly the EDIT_FILE object. -/
def classify_prompt_intent : ClassifyOutcome → IntentResult
  | .raised => ⟨some "EDIT_FILE", none⟩
  | .unparseable => ⟨some "EDIT_FILE", none⟩
  | .parsed i d =>
    if i = some "CREATE_FILE" ∨ i = some "EDIT_FILE" then ⟨i, d⟩
    else ⟨some "EDIT_FILE", none⟩

/-! ## generate_filename (agent.py) -/

/-- The character class of the sanitizing regex: lowercase basic latin
letters (codepoints 97-122) and digits (codepoints 48-57). -/
def isLowerAlnum (c : Char) : Bool :=
  decide ((97 ≤ c.toNat ∧ c.toNat ≤ 122) ∨ (48 ≤ c.toNat ∧ c.toNat ≤ 57))

/-- re.sub replacing every maximal run of characters outside the
lowercase-alphanumeric class by a single dash. -/
def dashify : List Char → List Char
  | [] => []
  | c :: rest =>
    if isLowerAlnum c then c :: dashify rest
    else '-' :: dashify (rest.dropWhile (fun d => ! isLowerAlnum d))
termination_by l => l.length
decreasing_by all_goals
  (simp only [List.length_cons]
   have h := List.Sublist.length_le
     (List.dropWhile_sublist (p := fun d => ! isLowerAlnum d) (l := rest))
   omega)

/-- Python str.strip with the dash argument. -/
def stripDashes (l : List Char) : List Char :=
  ((l.dropWhile (fun c => c = '-')).reverse.dropWhile (fun c => c = '-')).reverse

/-- re.sub collapsing every maximal run of dashes to a single dash. -/
def collapseDashes : List Char → List Char
  | [] => []
  | c :: rest =>
    if c = '-' then '-' :: collapseDashes (rest.dropWhile (fun d => d = '-'))
    else c :: collapseDashes rest
termination_by l => l.length
decreasing_by all_goals
  (simp only [List.length_cons]
   have h := List.Sublist.length_le
     (List.dropWhile_sublist (p := fun d => d = '-') (l := rest))
   omega)

/-- agent.py _create_fallback_filename: sanitize the description, fall
back to a fixed stem when empty, truncate to 20 characters, add the
extension. -/
def create_fallback_filename (description : String) : String :=
  let safe1 := stripDashes (dashify (pyLower description.data))
  let safe2 := collapseDashes safe1
  let safe3 := if safe2 = [] then ("agent").data else safe2
  String.mk (safe3.take 20 ++ (".based").data)

/-- The validity test generate_filename applies to the LLM answer. -/
def filenameValid (fn : List Char) : Bool :=
  ((".based").data.isSuffixOf fn) && (! fn.contains ' ') &&
    (! fn.contains '/') && decide (fn.length > 6)

/-- agent.py generate_filename: llm is none when the LLM call raises,
otherwise carries the raw response text. -/
def generate_filename (description : String) (llm : Option String) : String :=
  match llm with
  | none => create_fallback_filename description
  | some content =>
    let fn := pyLower (pyStrip (strip_code_blocks content.data))
    if filenameValid fn then String.mk fn
    else create_fallback_filename description

/-! ## Session state and the websocket handlers (main.py)

A session holds the conversation history, the workspace (an
insertion-ordered mapping of filename to content, modelled as an
association list with unique keys, exactly like a Python dict), and the
context accumulator.  The lock is modelled separately in the gate
section. -/

/-- One entry of the conversation history a session stores. -/
inductive Turn where
  | user (prompt : String) (context : List String) (activeFile : Option String)
  | agentCode (filename code : String)
  | agentDiff (filename diff : String)
deriving DecidableEq

/-- Session state (main.py sessions dictionary, minus the lock). -/
structure Session where
  messages : List Turn
  workspace : List (String × String)
  context : List String
deriving DecidableEq

/-- Python dict assignment: overwrite in place when the key exists,
append otherwise. -/
def wsInsert (k v : String) (ws : List (String × String)) :
    List (String × String) :=
  if (ws.lookup k).isSome then
    ws.map (fun p => if p.1 = k then (k, v) else p)
  else ws ++ [(k, v)]

/-- The context field of a prompt message: absent defaults to an empty
list; the value may be a list or a single item (duck typing in
handle_prompt_action). -/
inductive CtxArg where
  | items (l : List String)
  | single (s : String)
deriving DecidableEq

/-- The context-accumulator update of handle_prompt_action: skip falsy
values, extend on a list, append on a single item. -/
def updateContext (old : List String) : CtxArg → List String
  | .items l => if l = [] then old else old ++ l
  | .single s => if s = "" then old else old ++ [s]

/-- The raw context payload as logged in the user turn. -/
def ctxAsList : CtxArg → List String
  | .items l => l
  | .single s => [s]

/-- The responses the websocket handlers send (main.py).  Each
constructor corresponds to one literal response dictionary. -/
inductive Response where
  | fileCreated (filename content : String) (files : List String)
  | diffGenerated (filename diff new_code old_code : String)
  | editError (activeFile : Option String)
  | intentFailed
  | diffApplied (filename new_code : String)
  | applyDiffError (message : String)
  | applyDiffNotFound
  | operationRejected
deriving DecidableEq

/-- Result of one handle_prompt_action run: the updated session, the
response sent, and how many times each engine was invoked. -/
structure PromptResult where
  session : Session
  response : Response
  genCodeCalls : Nat
  genDiffCalls : Nat
deriving DecidableEq

/-- The check main.py performs before editing: a truthy activeFile that
is a key of the workspace; returns the filename and its content. -/
def validActive (ws : List (String × String)) :
    Option String → Option (String × String)
  | none => none
  | some a => if a = "" then none else (ws.lookup a).map (fun code => (a, code))

/-- The shared file-creation flow of handle_prompt_action (run both for
a CREATE_FILE intent and for the EDIT_FILE fallback on an empty
workspace): generate a filename from the classifier description,
generate initial code, insert the new workspace entry, log the turns,
answer file_created. -/
def createFlow (fnameLLM : Option String) (genEvents : Nat → RoundEvent)
    (s1 : Session) (prompt : String) (userLog : Turn)
    (intentResult : IntentResult) : PromptResult :=
  let description := intentResult.description.getD (prompt.take 50)
  let newFilename := generate_filename description fnameLLM
  let initialCode := (generate_based_code genEvents).result
  let ws := wsInsert newFilename initialCode s1.workspace
  { session :=
      { messages := s1.messages ++ [userLog, Turn.agentCode newFilename initialCode]
        workspace := ws
        context := s1.context }
    response := Response.fileCreated newFilename initialCode (ws.map Prod.fst)
    genCodeCalls := 1
    genDiffCalls := 0 }

/-- main.py handle_prompt_action: update the context, classify the
intent, and dispatch to creation, the empty-workspace fallback, the
select-a-file error, or diff generation. -/
def handle_prompt_action (classifyOut : ClassifyOutcome) (fnameLLM : Option String)
    (genEvents : Nat → RoundEvent)
    (applyP : String → String → Except String String)
    (dllm : Nat → Option String) (dval : Nat → ValEvent)
    (s : Session) (prompt : String) (ctx : CtxArg)
    (activeFile : Option String) : PromptResult :=
  let s1 : Session := { s with context := updateContext s.context ctx }
  let currentFiles := s1.workspace.map Prod.fst
  let intentResult := classify_prompt_intent classifyOut
  let intent := intentResult.intent.getD "EDIT_FILE"
  let userLog := Turn.user prompt (ctxAsList ctx) activeFile
  if intent = "CREATE_FILE" then
    createFlow fnameLLM genEvents s1 prompt userLog intentResult
  else if intent = "EDIT_FILE" then
    match validActive s1.workspace activeFile with
    | none =>
      if currentFiles = [] then
        createFlow fnameLLM genEvents s1 prompt userLog intentResult
      else
        { session := { s1 with messages := s1.messages ++ [userLog] }
          response := Response.editError activeFile
          genCodeCalls := 0
          genDiffCalls := 0 }
    | some (af, current_code) =>
      let dr := generate_based_diff applyP dllm dval current_code
      { session :=
          { s1 with messages := s1.messages ++ [userLog, Turn.agentDiff af dr.diff] }
        response := Response.diffGenerated af dr.diff dr.new_code dr.old_code
        genCodeCalls := 0
        genDiffCalls := 1 }
  else
    { session := { s1 with messages := s1.messages ++ [userLog] }
      response := Response.intentFailed
      genCodeCalls := 0
      genDiffCalls := 0 }

/-- main.py handle_apply_diff_action: for a truthy filename present in
the workspace, preprocess the caller-supplied diff, run the external
patch-apply collaborator, persist the result on success, answer the
Patch-failed error and leave the workspace untouched on failure. -/
def handle_apply_diff_action (applyP : String → String → Except String String)
    (s : Session) (filename : Option String) (diff : String) :
    Session × Response :=
  match filename with
  | none => (s, Response.applyDiffNotFound)
  | some f =>
    if f = "" then (s, Response.applyDiffNotFound)
    else
      match s.workspace.lookup f with
      | none => (s, Response.applyDiffNotFound)
      | some current_code =>
        match applyP current_code (preprocess_diffS diff) with
        | .ok new_code =>
          ({ s with workspace := wsInsert f new_code s.workspace },
           Response.diffApplied f new_code)
        | .error e => (s, Response.applyDiffError ("Patch failed: " ++ e))

/-! ## The per-session gate (main.py websocket_endpoint)

The dispatch loop guards the two mutating actions with the session
asyncio lock: a mutating action finding the lock held is answered with
the operation_rejected response and its handler never runs; an accepted
gated action releases the lock in a finally block, whether the handler
returns or raises.  We model the gate as a labelled transition system
whose start / finish steps are read off the dispatch code. -/

/-- The actions_requiring_lock list of websocket_endpoint. -/
def needsLock (action : String) : Bool :=
  action = "prompt" || action = "apply_diff"

/-- What the dispatcher decides when a message arrives. -/
inductive StartResult where
  | rejected
  | started (gated : Bool)
deriving DecidableEq

/-- Gate-relevant session state: whether the lock is held, and how many
mutating handlers are currently in flight. -/
structure WsState where
  held : Bool
  mutInFlight : Nat
deriving DecidableEq

/-- Arrival of a message with the given action: a mutating action is
rejected outright when the lock is held, otherwise the lock is acquired
and its handler starts; non-mutating actions start ungated. -/
def wsStart (s : WsState) (action : String) : WsState × StartResult :=
  if needsLock action then
    if s.held then (s, StartResult.rejected)
    else ({ held := true, mutInFlight := s.mutInFlight + 1 }, StartResult.started true)
  else (s, StartResult.started false)

/-- Completion of a handler, normally or by exception: the finally block
releases the lock iff this handler had acquired it. -/
def wsFinish (s : WsState) (gated : Bool) : WsState :=
  if gated then { held := false, mutInFlight := s.mutInFlight - 1 } else s

/-- States the dispatch loop can reach from a fresh session: any
sequence of arrivals and completions, where a gated completion can only
happen while the lock is held. -/
inductive ReachableWs : WsState → Prop where
  | init : ReachableWs ⟨false, 0⟩
  | step_start (s : WsState) (action : String) :
      ReachableWs s → ReachableWs (wsStart s action).1
  | step_finish (s : WsState) (gated : Bool) :
      ReachableWs s → (gated = true → s.held = true) →
      ReachableWs (wsFinish s gated)

/-! ## Theorems -/

/-! ### Gate invariant (C7 helper) -/

theorem reachableWs_inv (s : WsState) (h : ReachableWs s) :
    (s.held = true ↔ s.mutInFlight = 1) ∧ s.mutInFlight ≤ 1 := by
  induction h with
  | init => simp
  | step_start s a _ ih =>
    by_cases hn : needsLock a
    · by_cases hh : s.held
      · have he : (wsStart s a).1 = s := by simp [wsStart, hn, hh]
        rw [he]; exact ih
      · have h0 : s.mutInFlight = 0 := by
          rcases ih with ⟨iff1, le1⟩
          have : ¬ s.mutInFlight = 1 := fun h1 => by simp [iff1.mpr h1] at hh
          omega
        have he : (wsStart s a).1 = ⟨true, s.mutInFlight + 1⟩ := by
          simp [wsStart, hn, hh]
        rw [he, h0]; simp
    · have he : (wsStart s a).1 = s := by simp [wsStart, hn]
      rw [he]; exact ih
  | step_finish s g _ hg ih =>
    cases g with
    | false => simpa [wsFinish] using ih
    | true =>
      have h1 : s.mutInFlight = 1 := ih.1.mp (hg rfl)
      simp [wsFinish, h1]

/-- C7: a prompt or apply_diff message arriving while the session gate
is held is rejected with the operation-in-progress response and its
handler never starts (the state is unchanged, nothing is queued); a
gated handler completion always releases the gate, whether it returned
normally or raised; consequently, in every reachable dispatch state at
most one mutating operation is in flight. -/
theorem session_gate_protocol :
    (∀ (s : WsState) (action : String), needsLock action = true →
        s.held = true → wsStart s action = (s, StartResult.rejected)) ∧
    (∀ s : WsState, (wsFinish s true).held = false) ∧
    (∀ s : WsState, ReachableWs s → s.mutInFlight ≤ 1) := by
  refine ⟨?_, ?_, ?_⟩
  · intro s a hn hh; simp [wsStart, hn, hh]
  · intro s; simp [wsFinish]
  · intro s h; exact (reachableWs_inv s h).2

theorem session_gate_protocol_witness :
    wsStart ⟨true, 1⟩ "prompt" = (⟨true, 1⟩, StartResult.rejected) ∧
    (wsFinish ⟨true, 1⟩ true).held = false ∧
    (⟨false, 0⟩ : WsState).mutInFlight ≤ 1 :=
  ⟨session_gate_protocol.1 ⟨true, 1⟩ "prompt" (by decide) rfl,
   session_gate_protocol.2.1 ⟨true, 1⟩,
   session_gate_protocol.2.2 ⟨false, 0⟩ ReachableWs.init⟩

/-! ### C5: intent-router total fallback -/

/-- C5: classify_prompt_intent is total (it always yields one of the two
recognised intents), and on every failure path — the collaborator
raised, its output did not parse, or it parsed to an intent naming
neither recognised kind — the returned classification is exactly the
EDIT_FILE object with no description. -/
theorem classify_intent_total_fallback (o : ClassifyOutcome) :
    ((classify_prompt_intent o).intent = some "CREATE_FILE" ∨
      (classify_prompt_intent o).intent = some "EDIT_FILE") ∧
    ((o = ClassifyOutcome.raised ∨ o = ClassifyOutcome.unparseable ∨
        (∃ i d, o = ClassifyOutcome.parsed i d ∧
          i ≠ some "CREATE_FILE" ∧ i ≠ some "EDIT_FILE")) →
      classify_prompt_intent o = ⟨some "EDIT_FILE", none⟩) := by
  constructor
  · cases o with
    | raised => right; rfl
    | unparseable => right; rfl
    | parsed i d =>
      by_cases hi : i = some "CREATE_FILE" ∨ i = some "EDIT_FILE"
      · rcases hi with hi | hi
        · left; simp [classify_prompt_intent, hi]
        · right; simp [classify_prompt_intent, hi]
      · right; simp [classify_prompt_intent, hi]
  · rintro (rfl | rfl | ⟨i, d, rfl, hi1, hi2⟩)
    · rfl
    · rfl
    · have : ¬ (i = some "CREATE_FILE" ∨ i = some "EDIT_FILE") := by
        rintro (h | h) <;> [exact hi1 h; exact hi2 h]
      simp [classify_prompt_intent, this]

theorem classify_intent_total_fallback_witness :
    classify_prompt_intent (ClassifyOutcome.parsed (some "BANANA") none) =
      ⟨some "EDIT_FILE", none⟩ :=
  (classify_intent_total_fallback
      (ClassifyOutcome.parsed (some "BANANA") none)).2
    (Or.inr (Or.inr ⟨some "BANANA", none, rfl, by decide, by decide⟩))

/-! ### C9: the old_code frame of the diff engine -/

theorem diffLoop_old_code (applyP : String → String → Except String String)
    (llm : Nat → Option String) (dval : Nat → ValEvent) (cur : String) :
    ∀ fuel i ld ln, (diffLoop applyP llm dval cur i fuel ld ln).old_code = cur := by
  intro fuel
  induction fuel with
  | zero => intro i ld ln; rfl
  | succ n ih =>
    intro i ld ln
    rw [diffLoop]
    cases hl : llm i with
    | none => rfl
    | some raw =>
      simp only
      cases happ : applyP cur (preprocess_diffS (strip_code_blocksS raw)) with
      | error e => exact ih _ _ _
      | ok newCode =>
        simp only
        cases hv : dval i with
        | requestError => exact ih _ _ _
        | result st er conv =>
          by_cases hst : st = some "success"
          · simp [hst]
          · simp [hst]; exact ih _ _ _

/-- C9: on every return path of generate_based_diff — success in some
round, exhaustion of all rounds, or the early break on an LLM error —
the old_code field of the returned result is exactly the base text the
engine was called with. -/
theorem diff_result_old_code_frame
    (applyP : String → String → Except String String)
    (llm : Nat → Option String) (dval : Nat → ValEvent) (baseText : String) :
    (generate_based_diff applyP llm dval baseText).old_code = baseText :=
  diffLoop_old_code applyP llm dval baseText MAX_ITER 0 "" baseText

/-! ### C8: apply_diff success and error atomicity -/

/-- C8: for an apply_diff action naming a (truthy) filename present in
the workspace, a successful patch application replaces that workspace
entry with the patched text and answers diff_applied carrying the same
text; a failed application answers the error whose message is
Patch failed: followed by the underlying reason, and leaves the session
— in particular the workspace entry — unchanged. -/
theorem apply_diff_atomicity (applyP : String → String → Except String String)
    (s : Session) (f : String) (diff : String) (current_code : String)
    (hf : f ≠ "") (hcur : s.workspace.lookup f = some current_code) :
    (∀ new_code, applyP current_code (preprocess_diffS diff) = .ok new_code →
        handle_apply_diff_action applyP s (some f) diff =
          ({ s with workspace := wsInsert f new_code s.workspace },
            Response.diffApplied f new_code)) ∧
    (∀ e, applyP current_code (preprocess_diffS diff) = .error e →
        handle_apply_diff_action applyP s (some f) diff =
          (s, Response.applyDiffError ("Patch failed: " ++ e))) := by
  constructor
  · intro new_code hx
    simp [handle_apply_diff_action, hf, hcur, hx]
  · intro e hx
    simp [handle_apply_diff_action, hf, hcur, hx]

theorem apply_diff_atomicity_witness :
    handle_apply_diff_action (fun _ _ => Except.ok "NEW")
        ⟨[], [("a.based", "old")], []⟩ (some "a.based") "d" =
      (⟨[], [("a.based", "NEW")], []⟩, Response.diffApplied "a.based" "NEW") ∧
    handle_apply_diff_action (fun _ _ => Except.error "bad hunk")
        ⟨[], [("a.based", "old")], []⟩ (some "a.based") "d" =
      (⟨[], [("a.based", "old")], []⟩,
        Response.applyDiffError "Patch failed: bad hunk") := by
  constructor
  · have h := (apply_diff_atomicity (fun _ _ => Except.ok "NEW")
      ⟨[], [("a.based", "old")], []⟩ "a.based" "d" "old"
      (by decide) rfl).1 "NEW" rfl
    rw [h]; decide
  · exact (apply_diff_atomicity (fun _ _ => Except.error "bad hunk")
      ⟨[], [("a.based", "old")], []⟩ "a.based" "d" "old"
      (by decide) rfl).2 "bad hunk" rfl

/-! ### C10: generate_filename guarantees -/

theorem char_toNat_ofNat {n : Nat} (h : n.isValidChar) :
    (Char.ofNat n).toNat = n := by
  simp [Char.ofNat, h, Char.ofNatAux, Char.toNat, UInt32.toNat]

theorem pyLowerChar_not_upper (c : Char) :
    ¬ (65 ≤ (pyLowerChar c).toNat ∧ (pyLowerChar c).toNat ≤ 90) := by
  unfold pyLowerChar
  by_cases h : 65 ≤ c.toNat ∧ c.toNat ≤ 90
  · rw [if_pos h, char_toNat_ofNat (Or.inl (by omega))]
    omega
  · rw [if_neg h]
    exact h

theorem pyLowerChar_fix (c : Char)
    (h : ¬ (65 ≤ c.toNat ∧ c.toNat ≤ 90)) : pyLowerChar c = c := by
  unfold pyLowerChar
  rw [if_neg h]

theorem pyLowerChar_idem (c : Char) :
    pyLowerChar (pyLowerChar c) = pyLowerChar c :=
  pyLowerChar_fix _ (pyLowerChar_not_upper c)

theorem pyLower_idem (l : List Char) : pyLower (pyLower l) = pyLower l := by
  unfold pyLower
  rw [List.map_map]
  exact List.map_congr_left (fun a _ => by
    simp only [Function.comp_apply, pyLowerChar_idem])

theorem mem_dashify (l : List Char) :
    ∀ c ∈ dashify l, isLowerAlnum c = true ∨ c = '-' := by
  induction l using dashify.induct with
  | case1 => simp [dashify]
  | case2 c rest h ih =>
    rw [dashify, if_pos h]
    intro x hx
    rcases List.mem_cons.mp hx with rfl | hx
    · exact Or.inl h
    · exact ih x hx
  | case3 c rest h ih =>
    rw [dashify, if_neg h]
    intro x hx
    rcases List.mem_cons.mp hx with rfl | hx
    · exact Or.inr rfl
    · exact ih x hx

theorem mem_stripDashes (l : List Char) : ∀ c ∈ stripDashes l, c ∈ l := by
  intro c hc
  unfold stripDashes at hc
  rw [List.mem_reverse] at hc
  have h1 := (List.dropWhile_sublist (l := (l.dropWhile fun c => c = '-').reverse)
    (p := fun c => c = '-')).subset hc
  rw [List.mem_reverse] at h1
  exact (List.dropWhile_sublist (l := l) (p := fun c => c = '-')).subset h1

theorem mem_collapseDashes (l : List Char) :
    ∀ c ∈ collapseDashes l, c ∈ l ∨ c = '-' := by
  induction l using collapseDashes.induct with
  | case1 => simp [collapseDashes]
  | case2 rest ih =>
    rw [collapseDashes, if_pos rfl]
    intro x hx
    rcases List.mem_cons.mp hx with rfl | hx
    · exact Or.inr rfl
    · rcases ih x hx with h2 | h2
      · exact Or.inl (List.mem_cons_of_mem _
          ((List.dropWhile_sublist (l := rest) (p := fun d => d = '-')).subset h2))
      · exact Or.inr h2
  | case3 c rest h ih =>
    rw [collapseDashes, if_neg h]
    intro x hx
    rcases List.mem_cons.mp hx with rfl | hx
    · exact Or.inl (List.mem_cons_self _ _)
    · rcases ih x hx with h2 | h2
      · exact Or.inl (List.mem_cons_of_mem _ h2)
      · exact Or.inr h2

theorem fallback_chars (d : String) :
    ∀ c ∈ (create_fallback_filename d).data,
      isLowerAlnum c = true ∨ c = '-' ∨ c ∈ (".based").data := by
  intro c hc
  unfold create_fallback_filename at hc
  simp only [String.data] at hc
  rcases List.mem_append.mp hc with hc | hc
  · have hc2 := (List.take_sublist _ _).subset hc
    by_cases he : collapseDashes (stripDashes (dashify (pyLower d.data))) = []
    · rw [if_pos he] at hc2
      simp at hc2
      rcases hc2 with rfl | rfl | rfl | rfl | rfl <;> exact Or.inl (by decide)
    · rw [if_neg he] at hc2
      rcases mem_collapseDashes _ c hc2 with h2 | h2
      · rcases mem_dashify _ c (mem_stripDashes _ c h2) with h3 | h3
        · exact Or.inl h3
        · exact Or.inr (Or.inl h3)
      · exact Or.inr (Or.inl h2)
  · exact Or.inr (Or.inr hc)

theorem lowerFix_of_class (c : Char)
    (h : isLowerAlnum c = true ∨ c = '-' ∨ c ∈ (".based").data) :
    pyLowerChar c = c := by
  rcases h with h | rfl | h
  · apply pyLowerChar_fix
    simp [isLowerAlnum] at h
    omega
  · decide
  · have he : ((".based").data = ['.', 'b', 'a', 's', 'e', 'd']) := rfl
    rw [he] at h
    simp at h
    rcases h with rfl | rfl | rfl | rfl | rfl | rfl <;> decide

theorem fallback_guarantee (d : String) :
    create_fallback_filename d ≠ "" ∧
    pyLower (create_fallback_filename d).data = (create_fallback_filename d).data ∧
    (∃ p, (create_fallback_filename d).data = p ++ (".based").data) ∧
    ' ' ∉ (create_fallback_filename d).data ∧
    '/' ∉ (create_fallback_filename d).data := by
  refine ⟨?_, ?_, ?_, ?_, ?_⟩
  · intro h
    have h2 := congrArg String.data h
    unfold create_fallback_filename at h2
    simp at h2
  · unfold pyLower
    have h2 := List.map_congr_left (l := (create_fallback_filename d).data)
      (f := pyLowerChar) (g := fun a => a)
      (fun a ha => lowerFix_of_class a (fallback_chars d a ha))
    simpa using h2
  · exact ⟨_, rfl⟩
  · intro h
    exact absurd (fallback_chars d ' ' h) (by decide)
  · intro h
    exact absurd (fallback_chars d '/' h) (by decide)

/-- C10: whatever the filename-generation collaborator does — returns a
well-formed name, returns an invalid one, or raises — generate_filename
returns a non-empty string that is its own lowercase image, ends in the
.based extension, and contains neither a space nor a slash. -/
theorem generate_filename_guarantee (description : String) (llm : Option String) :
    generate_filename description llm ≠ "" ∧
    pyLower (generate_filename description llm).data
      = (generate_filename description llm).data ∧
    (∃ p, (generate_filename description llm).data = p ++ (".based").data) ∧
    ' ' ∉ (generate_filename description llm).data ∧
    '/' ∉ (generate_filename description llm).data := by
  cases llm with
  | none => exact fallback_guarantee description
  | some content =>
    simp only [generate_filename]
    by_cases hv : filenameValid (pyLower (pyStrip (strip_code_blocks content.data)))
    · rw [if_pos hv]
      set fn := pyLower (pyStrip (strip_code_blocks content.data)) with hfn
      simp only [filenameValid, Bool.and_eq_true, Bool.not_eq_eq_eq_not,
        Bool.not_true, decide_eq_true_eq] at hv
      obtain ⟨⟨⟨hsuf, hsp⟩, hsl⟩, hlen⟩ := hv
      refine ⟨?_, ?_, ?_, ?_, ?_⟩
      · intro h
        have h2 := congrArg String.data h
        simp only at h2
        rw [h2] at hlen
        simp at hlen
      · exact pyLower_idem _
      · have h2 := List.isSuffixOf_iff_suffix.mp hsuf
        rcases h2 with ⟨p, hp⟩
        exact ⟨p, hp.symm⟩
      · intro h
        simp only [List.contains, List.elem_eq_mem, decide_eq_false_iff_not] at hsp
        exact hsp h
      · intro h
        simp only [List.contains, List.elem_eq_mem, decide_eq_false_iff_not] at hsl
        exact hsl h
    · rw [if_neg hv]
      exact fallback_guarantee description

/-! ### C1: the GenerationEngine contract -/

theorem generateLoop_step (events : Nat → RoundEvent) (i fuel : Nat)
    (last : String) (g v : Nat) (raw : String) (ve : ValEvent)
    (he : events i = RoundEvent.llmOk raw ve) (hv : valNotSuccess ve) :
    generateLoop events i (fuel + 1) last g v =
      generateLoop events (i + 1) fuel (strip_code_blocksS raw) (g + 1) (v + 1) := by
  conv_lhs => rw [generateLoop]
  rw [he]
  cases ve with
  | requestError => rfl
  | result st er conv =>
    simp only [valNotSuccess] at hv
    simp only [hv, if_false, ite_false]

theorem generateLoop_exhaust (events : Nat → RoundEvent) (raw : Nat → String)
    (ve : Nat → ValEvent) :
    ∀ fuel i last g v,
      (∀ j ≤ fuel, events (i + j) = RoundEvent.llmOk (raw (i + j)) (ve (i + j)) ∧
        valNotSuccess (ve (i + j))) →
      generateLoop events i (fuel + 1) last g v =
        ⟨strip_code_blocksS (raw (i + fuel)), g + (fuel + 1), v + (fuel + 1)⟩ := by
  intro fuel
  induction fuel with
  | zero =>
    intro i last g v h
    obtain ⟨he, hv⟩ := h 0 (Nat.le_refl 0)
    rw [Nat.add_zero] at he hv
    rw [generateLoop_step events i 0 last g v (raw i) (ve i) he hv]
    simp [generateLoop, Nat.add_zero]
  | succ fuel ih =>
    intro i last g v h
    obtain ⟨he, hv⟩ := h 0 (Nat.zero_le _)
    rw [Nat.add_zero] at he hv
    have hshift : ∀ j ≤ fuel,
        events (i + 1 + j) = RoundEvent.llmOk (raw (i + 1 + j)) (ve (i + 1 + j)) ∧
        valNotSuccess (ve (i + 1 + j)) := by
      intro j hj
      have h2 := h (j + 1) (by omega)
      rwa [show i + (j + 1) = i + 1 + j by omega] at h2
    rw [generateLoop_step events i (fuel + 1) last g v (raw i) (ve i) he hv,
      ih (i + 1) (strip_code_blocksS (raw i)) (g + 1) (v + 1) hshift,
      show i + 1 + fuel = i + (fuel + 1) by omega]
    congr 1 <;> omega

theorem generateLoop_success (events : Nat → RoundEvent) (raw : Nat → String)
    (ve : Nat → ValEvent) :
    ∀ k fuel i last g v, k < fuel →
      (∀ j < k, events (i + j) = RoundEvent.llmOk (raw (i + j)) (ve (i + j)) ∧
        valNotSuccess (ve (i + j))) →
      ∀ st er conv, events (i + k) = RoundEvent.llmOk (raw (i + k)) (ve (i + k)) →
        ve (i + k) = ValEvent.result st er conv → st = some "success" →
      generateLoop events i fuel last g v =
        ⟨conv.getD (strip_code_blocksS (raw (i + k))), g + (k + 1), v + (k + 1)⟩ := by
  intro k
  induction k with
  | zero =>
    intro fuel i last g v hk _ st er conv hev hve hst
    obtain ⟨fuel, rfl⟩ : ∃ f, fuel = f + 1 := ⟨fuel - 1, by omega⟩
    rw [Nat.add_zero] at hev hve
    conv_lhs => rw [generateLoop]
    rw [hev, hve, hst]
    simp [Nat.add_zero]
  | succ k ih =>
    intro fuel i last g v hk hpre st er conv hev hve hst
    obtain ⟨fuel, rfl⟩ : ∃ f, fuel = f + 1 := ⟨fuel - 1, by omega⟩
    obtain ⟨he0, hv0⟩ := hpre 0 (Nat.succ_pos k)
    rw [Nat.add_zero] at he0 hv0
    have hshift : ∀ j < k,
        events (i + 1 + j) = RoundEvent.llmOk (raw (i + 1 + j)) (ve (i + 1 + j)) ∧
        valNotSuccess (ve (i + 1 + j)) := by
      intro j hj
      have h2 := hpre (j + 1) (by omega)
      rwa [show i + (j + 1) = i + 1 + j by omega] at h2
    have harith : i + 1 + k = i + (k + 1) := by omega
    have hev2 : events (i + 1 + k) =
        RoundEvent.llmOk (raw (i + 1 + k)) (ve (i + 1 + k)) := by
      rw [harith]; exact hev
    have hve2 : ve (i + 1 + k) = ValEvent.result st er conv := by
      rw [harith]; exact hve
    rw [generateLoop_step events i fuel last g v (raw i) (ve i) he0 hv0,
      ih fuel (i + 1) (strip_code_blocksS (raw i)) (g + 1) (v + 1)
        (by omega) hshift st er conv hev2 hve2 hst,
      harith]
    congr 1 <;> omega

/-- C1: when the generation collaborator answers every round and the
validation call of round k (zero-based, k+1 ≤ MAX_ITER) is the first to
report success, generate_based_code makes exactly k+1 generation calls
and k+1 validation calls and returns the converted code supplied by the
validator, or the stripped candidate of round k when none is supplied;
when all MAX_ITER validation calls fail, exactly MAX_ITER generation
calls occur and the last stripped candidate is returned. -/
theorem generation_engine_contract (raw : Nat → String) (ve : Nat → ValEvent)
    (events : Nat → RoundEvent)
    (hev : ∀ j < MAX_ITER, events j = RoundEvent.llmOk (raw j) (ve j)) :
    (∀ k, k < MAX_ITER → (∀ j < k, valNotSuccess (ve j)) →
      ∀ st er conv, ve k = ValEvent.result st er conv → st = some "success" →
      generate_based_code events =
        ⟨conv.getD (strip_code_blocksS (raw k)), k + 1, k + 1⟩) ∧
    ((∀ j < MAX_ITER, valNotSuccess (ve j)) →
      generate_based_code events =
        ⟨strip_code_blocksS (raw (MAX_ITER - 1)), MAX_ITER, MAX_ITER⟩) := by
  constructor
  · intro k hk hpre st er conv hve hst
    have h := generateLoop_success events raw ve k MAX_ITER 0 "" 0 0 hk
      (fun j hj => by
        rw [Nat.zero_add]
        exact ⟨hev j (by omega), hpre j hj⟩)
      st er conv (by rw [Nat.zero_add]; exact hev k hk)
      (by rw [Nat.zero_add]; exact hve) hst
    rw [Nat.zero_add] at h
    simpa [generate_based_code] using h
  · intro hall
    have h := generateLoop_exhaust events raw ve (MAX_ITER - 1) 0 "" 0 0
      (fun j hj => by
        rw [Nat.zero_add]
        exact ⟨hev j (by simp [MAX_ITER] at hj ⊢; omega),
          hall j (by simp [MAX_ITER] at hj ⊢; omega)⟩)
    rw [Nat.zero_add] at h
    simpa [generate_based_code, MAX_ITER] using h

theorem generation_engine_contract_witness :
    generate_based_code (fun _ => RoundEvent.llmOk "print"
        (ValEvent.result (some "success") none (some "CONVERTED"))) =
      ⟨"CONVERTED", 1, 1⟩ := by
  have h := (generation_engine_contract (fun _ => "print")
      (fun _ => ValEvent.result (some "success") none (some "CONVERTED"))
      (fun _ => RoundEvent.llmOk "print"
        (ValEvent.result (some "success") none (some "CONVERTED")))
      (fun _ _ => rfl)).1 0 (by decide)
      (fun j hj => absurd hj (Nat.not_lt_zero j))
      (some "success") none (some "CONVERTED") rfl rfl
  simpa using h

/-! ### C2: DiffEngine exhaustion pairing -/

theorem diffLoop_step_patchError
    (applyP : String → String → Except String String)
    (llm : Nat → Option String) (dval : Nat → ValEvent) (cur : String)
    (i fuel : Nat) (ld ln raw e : String)
    (hl : llm i = some raw)
    (ha : applyP cur (preprocess_diffS (strip_code_blocksS raw)) = Except.error e) :
    diffLoop applyP llm dval cur i (fuel + 1) ld ln =
      diffLoop applyP llm dval cur (i + 1) fuel (strip_code_blocksS raw) ln := by
  conv_lhs => rw [diffLoop]
  rw [hl]
  simp only [ha]

theorem diffLoop_step_applied
    (applyP : String → String → Except String String)
    (llm : Nat → Option String) (dval : Nat → ValEvent) (cur : String)
    (i fuel : Nat) (ld ln raw t : String)
    (hl : llm i = some raw)
    (ha : applyP cur (preprocess_diffS (strip_code_blocksS raw)) = Except.ok t)
    (hv : valNotSuccess (dval i)) :
    diffLoop applyP llm dval cur i (fuel + 1) ld ln =
      diffLoop applyP llm dval cur (i + 1) fuel (strip_code_blocksS raw) t := by
  conv_lhs => rw [diffLoop]
  rw [hl]
  cases hdv : dval i with
  | requestError => simp only [ha, hdv]
  | result st er conv =>
    rw [hdv] at hv
    simp only [valNotSuccess] at hv
    simp only [ha, hdv, hv, if_false, ite_false]

theorem lastAppliedFrom_step
    (applyP : String → String → Except String String) (cur : String)
    (raw : Nat → String) (i fuel : Nat) (ln : String) :
    lastAppliedFrom applyP cur raw i (fuel + 1) ln =
      lastAppliedFrom applyP cur raw (i + 1) fuel
        (match applyP cur (preprocess_diffS (strip_code_blocksS (raw i))) with
         | .ok t => t
         | .error _ => ln) := rfl

theorem diffLoop_exhaust
    (applyP : String → String → Except String String)
    (llm : Nat → Option String) (dval : Nat → ValEvent) (cur : String)
    (raw : Nat → String) :
    ∀ fuel i ld ln,
      (∀ j ≤ fuel, llm (i + j) = some (raw (i + j)) ∧
        ((∃ e, applyP cur (preprocess_diffS (strip_code_blocksS (raw (i + j)))) =
            Except.error e) ∨ valNotSuccess (dval (i + j)))) →
      diffLoop applyP llm dval cur i (fuel + 1) ld ln =
        ⟨strip_code_blocksS (raw (i + fuel)),
         lastAppliedFrom applyP cur raw i (fuel + 1) ln, cur⟩ := by
  intro fuel
  induction fuel with
  | zero =>
    intro i ld ln h
    obtain ⟨hl, hf⟩ := h 0 (Nat.le_refl 0)
    rw [Nat.add_zero] at hl hf
    cases ha : applyP cur (preprocess_diffS (strip_code_blocksS (raw i))) with
    | error e =>
      rw [diffLoop_step_patchError applyP llm dval cur i 0 ld ln (raw i) e hl ha,
        lastAppliedFrom_step]
      rw [ha]
      simp [diffLoop, lastAppliedFrom, Nat.add_zero]
    | ok t =>
      have hv : valNotSuccess (dval i) := by
        rcases hf with ⟨e, he⟩ | hv
        · rw [ha] at he; cases he
        · exact hv
      rw [diffLoop_step_applied applyP llm dval cur i 0 ld ln (raw i) t hl ha hv,
        lastAppliedFrom_step]
      rw [ha]
      simp [diffLoop, lastAppliedFrom, Nat.add_zero]
  | succ fuel ih =>
    intro i ld ln h
    obtain ⟨hl, hf⟩ := h 0 (Nat.zero_le _)
    rw [Nat.add_zero] at hl hf
    have hshift : ∀ j ≤ fuel, llm (i + 1 + j) = some (raw (i + 1 + j)) ∧
        ((∃ e, applyP cur (preprocess_diffS (strip_code_blocksS (raw (i + 1 + j)))) =
            Except.error e) ∨ valNotSuccess (dval (i + 1 + j))) := by
      intro j hj
      have h2 := h (j + 1) (by omega)
      rwa [show i + (j + 1) = i + 1 + j by omega] at h2
    have harith : i + 1 + fuel = i + (fuel + 1) := by omega
    cases ha : applyP cur (preprocess_diffS (strip_code_blocksS (raw i))) with
    | error e =>
      have hlast : lastAppliedFrom applyP cur raw i (fuel + 1 + 1) ln =
          lastAppliedFrom applyP cur raw (i + 1) (fuel + 1) ln := by
        rw [lastAppliedFrom_step]
        congr 1
        rw [ha]
      rw [diffLoop_step_patchError applyP llm dval cur i (fuel + 1) ld ln (raw i) e hl ha,
        ih (i + 1) (strip_code_blocksS (raw i)) ln hshift, harith, hlast]
    | ok t =>
      have hv : valNotSuccess (dval i) := by
        rcases hf with ⟨e, he⟩ | hv
        · rw [ha] at he; cases he
        · exact hv
      have hlast : lastAppliedFrom applyP cur raw i (fuel + 1 + 1) ln =
          lastAppliedFrom applyP cur raw (i + 1) (fuel + 1) t := by
        rw [lastAppliedFrom_step]
        congr 1
        rw [ha]
      rw [diffLoop_step_applied applyP llm dval cur i (fuel + 1) ld ln (raw i) t hl ha hv,
        ih (i + 1) (strip_code_blocksS (raw i)) t hshift, harith, hlast]

/-- C2, counterexample: a run in which round 0 produces diff A which
applies (yielding text X) but fails validation, and rounds 1-4 produce
diff B which never applies.  On exhaustion the code returns the diff
field B — the last raw attempt, which never applied — paired with X,
not the last diff that did apply (A) as the claim states. -/
theorem diff_engine_exhaustion_pairing_cex :
    generate_based_diff
        (fun _ p => if p = "A" then Except.ok "X" else Except.error "nope")
        (fun n => if n = 0 then some "A" else some "B")
        (fun _ => ValEvent.result (some "fail") none none) "base" =
      ⟨"B", "X", "base"⟩ ∧
    (fun (_ : String) p => if p = "A" then Except.ok "X"
        else Except.error ("nope" : String)) "base"
        (preprocess_diffS (strip_code_blocksS "A")) = Except.ok "X" ∧
    (fun (_ : String) p => if p = "A" then Except.ok "X"
        else Except.error ("nope" : String)) "base"
        (preprocess_diffS (strip_code_blocksS "B")) = Except.error "nope" ∧
    ("B" : String) ≠ "A" :=
  ⟨by decide, rfl, rfl, by decide⟩

/-- C2 amended: when generate_based_diff exhausts all MAX_ITER rounds
without a validation success (each round the LLM answers, and its diff
either fails to apply or survives application but fails validation), the
result pairs the last raw diff attempt — not necessarily one that
applied — with the text produced by the last diff that did apply, or
with the unmodified base text when no diff in the whole loop applied;
old_code is the base text. -/
theorem diff_engine_exhaustion_pairing_amended
    (applyP : String → String → Except String String)
    (llm : Nat → Option String) (dval : Nat → ValEvent)
    (raw : Nat → String) (baseText : String)
    (h : ∀ j < MAX_ITER, llm j = some (raw j) ∧
      ((∃ e, applyP baseText (preprocess_diffS (strip_code_blocksS (raw j))) =
          Except.error e) ∨ valNotSuccess (dval j))) :
    generate_based_diff applyP llm dval baseText =
      ⟨strip_code_blocksS (raw (MAX_ITER - 1)),
       lastAppliedFrom applyP baseText raw 0 MAX_ITER baseText, baseText⟩ := by
  have h2 := diffLoop_exhaust applyP llm dval baseText raw (MAX_ITER - 1) 0 "" baseText
    (fun j hj => by
      rw [Nat.zero_add]
      exact h j (by simp [MAX_ITER] at hj ⊢; omega))
  rw [Nat.zero_add] at h2
  simpa [generate_based_diff, MAX_ITER] using h2

theorem diff_engine_exhaustion_pairing_amended_witness :
    generate_based_diff (fun _ _ => Except.error "mismatch")
        (fun _ => some "D") (fun _ => ValEvent.result (some "fail") none none)
        "base" = ⟨"D", "base", "base"⟩ := by
  have h := diff_engine_exhaustion_pairing_amended
    (fun _ _ => Except.error "mismatch") (fun _ => some "D")
    (fun _ => ValEvent.result (some "fail") none none) (fun _ => "D") "base"
    (fun j _ => ⟨rfl, Or.inl ⟨"mismatch", rfl⟩⟩)
  rw [h]
  decide

/-! ### C6: the EDIT_FILE dispatch rule -/

/-- C6: for a prompt classified EDIT_FILE with no valid active filename
(no active file, an empty one, or one absent from the workspace): when
the workspace is empty the request falls back to file creation — the
generated filename and code are inserted as a new workspace entry, the
response is the file_created success response, and the generation engine
runs exactly once; when the workspace is non-empty the response is the
select-a-file edit error, the workspace is unchanged, and neither the
generation engine nor the diff engine is invoked. -/
theorem edit_file_dispatch_rule (classifyOut : ClassifyOutcome)
    (fnameLLM : Option String) (genEvents : Nat → RoundEvent)
    (applyP : String → String → Except String String)
    (dllm : Nat → Option String) (dval : Nat → ValEvent)
    (s : Session) (prompt : String) (ctx : CtxArg) (activeFile : Option String)
    (hintent : (classify_prompt_intent classifyOut).intent = some "EDIT_FILE")
    (hactive : validActive s.workspace activeFile = none) :
    (s.workspace = [] →
      (handle_prompt_action classifyOut fnameLLM genEvents applyP dllm dval
          s prompt ctx activeFile).response =
        Response.fileCreated
          (generate_filename
            ((classify_prompt_intent classifyOut).description.getD (prompt.take 50))
            fnameLLM)
          (generate_based_code genEvents).result
          [generate_filename
            ((classify_prompt_intent classifyOut).description.getD (prompt.take 50))
            fnameLLM] ∧
      (handle_prompt_action classifyOut fnameLLM genEvents applyP dllm dval
          s prompt ctx activeFile).session.workspace =
        [(generate_filename
            ((classify_prompt_intent classifyOut).description.getD (prompt.take 50))
            fnameLLM,
          (generate_based_code genEvents).result)] ∧
      (handle_prompt_action classifyOut fnameLLM genEvents applyP dllm dval
          s prompt ctx activeFile).genCodeCalls = 1 ∧
      (handle_prompt_action classifyOut fnameLLM genEvents applyP dllm dval
          s prompt ctx activeFile).genDiffCalls = 0) ∧
    (s.workspace ≠ [] →
      (handle_prompt_action classifyOut fnameLLM genEvents applyP dllm dval
          s prompt ctx activeFile).response = Response.editError activeFile ∧
      (handle_prompt_action classifyOut fnameLLM genEvents applyP dllm dval
          s prompt ctx activeFile).session.workspace = s.workspace ∧
      (handle_prompt_action classifyOut fnameLLM genEvents applyP dllm dval
          s prompt ctx activeFile).genCodeCalls = 0 ∧
      (handle_prompt_action classifyOut fnameLLM genEvents applyP dllm dval
          s prompt ctx activeFile).genDiffCalls = 0) := by
  constructor
  · intro hws
    rw [hws] at hactive
    simp only [handle_prompt_action, hintent, Option.getD_some, hws, hactive,
      createFlow, wsInsert]
    simp [createFlow, wsInsert]
  · intro hws
    have hmap : ¬ (s.workspace.map Prod.fst = []) := by
      simpa using hws
    simp only [handle_prompt_action, hintent, Option.getD_some, hactive]
    simp [hmap]

theorem edit_file_dispatch_rule_witness :
    (handle_prompt_action (ClassifyOutcome.parsed (some "EDIT_FILE") none)
        (some "util-agent.based") (fun _ => RoundEvent.llmError)
        (fun _ _ => Except.error "x") (fun _ => none) (fun _ => ValEvent.requestError)
        ⟨[], [], []⟩ "p" (CtxArg.items []) none).genCodeCalls = 1 ∧
    (handle_prompt_action (ClassifyOutcome.parsed (some "EDIT_FILE") none)
        (some "util-agent.based") (fun _ => RoundEvent.llmError)
        (fun _ _ => Except.error "x") (fun _ => none) (fun _ => ValEvent.requestError)
        ⟨[], [("f.based", "x")], []⟩ "p" (CtxArg.items []) none).response =
      Response.editError none := by
  constructor
  · exact ((edit_file_dispatch_rule (ClassifyOutcome.parsed (some "EDIT_FILE") none)
      (some "util-agent.based") (fun _ => RoundEvent.llmError)
      (fun _ _ => Except.error "x") (fun _ => none) (fun _ => ValEvent.requestError)
      ⟨[], [], []⟩ "p" (CtxArg.items []) none (by decide) rfl).1 rfl).2.2.1
  · exact ((edit_file_dispatch_rule (ClassifyOutcome.parsed (some "EDIT_FILE") none)
      (some "util-agent.based") (fun _ => RoundEvent.llmError)
      (fun _ _ => Except.error "x") (fun _ => none) (fun _ => ValEvent.requestError)
      ⟨[], [("f.based", "x")], []⟩ "p" (CtxArg.items []) none (by decide) rfl).2
      (by decide)).1

/-! ### C3, C4: properties of preprocess_diff

The lemma stack below establishes what one pass of the normalizer does
to its own output: the lines of the output are free of line breaks,
free of fence lines, and fixed under metadata trimming, so that a
second pass can only delete newly adjacent header pairs or drop a
trailing blank line. -/

theorem pySplitlinesAux_nil (acc : List Char) :
    pySplitlinesAux [] acc = if acc.isEmpty then [] else [acc.reverse] := rfl

theorem pySplitlinesAux_crlf (rest acc : List Char) :
    pySplitlinesAux ('\r' :: '\n' :: rest) acc =
      acc.reverse :: pySplitlinesAux rest [] := rfl

theorem pySplitlinesAux_cons_newline (rest acc : List Char) :
    pySplitlinesAux ('\n' :: rest) acc = acc.reverse :: pySplitlinesAux rest [] :=
  rfl

theorem pySplitlinesAux_cons_break (c : Char) (rest acc : List Char)
    (hne : ∀ rest2, c = '\r' → rest = '\n' :: rest2 → False)
    (hbr : isLineBreak c = true) :
    pySplitlinesAux (c :: rest) acc = acc.reverse :: pySplitlinesAux rest [] := by
  rw [pySplitlinesAux.eq_def]
  split
  · next a b d heq => exact absurd heq (by simp)
  · next a b d r2 heq =>
    rw [List.cons.injEq] at heq
    obtain ⟨h1, h2⟩ := heq
    exact (hne r2 h1 h2).elim
  · next a b d hd tl hg heq =>
    rw [List.cons.injEq] at heq
    obtain ⟨rfl, rfl⟩ := heq
    rw [hbr]
    simp

theorem pySplitlinesAux_cons_nobreak (c : Char) (rest acc : List Char)
    (hc : isLineBreak c = false) :
    pySplitlinesAux (c :: rest) acc = pySplitlinesAux rest (c :: acc) := by
  rw [pySplitlinesAux.eq_def]
  split
  · next a b d heq => exact absurd heq (by simp)
  · next a b d r2 heq =>
    rw [List.cons.injEq] at heq
    obtain ⟨rfl, rfl⟩ := heq
    simp [isLineBreak] at hc
  · next a b d hd tl hg heq =>
    rw [List.cons.injEq] at heq
    obtain ⟨rfl, rfl⟩ := heq
    rw [hc]
    simp

theorem pySplitlinesAux_breakFree :
    ∀ (cs acc : List Char), (∀ c ∈ acc, isLineBreak c = false) →
      ∀ l ∈ pySplitlinesAux cs acc, ∀ c ∈ l, isLineBreak c = false := by
  intro cs acc
  induction cs, acc using pySplitlinesAux.induct with
  | case1 acc he =>
    intro hacc l hl
    rw [pySplitlinesAux_nil, if_pos he] at hl
    simp at hl
  | case2 acc he =>
    intro hacc l hl
    rw [pySplitlinesAux_nil, if_neg he] at hl
    simp at hl
    subst hl
    intro c hc
    exact hacc c (List.mem_reverse.mp hc)
  | case3 rest acc ih =>
    intro hacc l hl
    rw [pySplitlinesAux_crlf] at hl
    rcases List.mem_cons.mp hl with rfl | hl
    · intro c hc
      exact hacc c (List.mem_reverse.mp hc)
    · exact ih (by simp) l hl
  | case4 c rest acc hne hbr ih =>
    intro hacc l hl
    rw [pySplitlinesAux_cons_break c rest acc hne hbr] at hl
    rcases List.mem_cons.mp hl with rfl | hl
    · intro d hd
      exact hacc d (List.mem_reverse.mp hd)
    · exact ih (by simp) l hl
  | case5 c rest acc hne hbr ih =>
    intro hacc l hl
    rw [pySplitlinesAux_cons_nobreak c rest acc (by simpa using hbr)] at hl
    refine ih ?_ l hl
    intro d hd
    rcases List.mem_cons.mp hd with rfl | hd
    · simpa using hbr
    · exact hacc d hd

theorem pySplitlinesAux_append (l : List Char)
    (hl : ∀ c ∈ l, isLineBreak c = false) :
    ∀ rest acc, pySplitlinesAux (l ++ rest) acc =
      pySplitlinesAux rest (l.reverse ++ acc) := by
  induction l with
  | nil => intro rest acc; simp
  | cons c t ih =>
    intro rest acc
    have hc : isLineBreak c = false := hl c (List.mem_cons_self c t)
    rw [List.cons_append, pySplitlinesAux_cons_nobreak c (t ++ rest) acc hc,
      ih (fun d hd => hl d (List.mem_cons_of_mem c hd)) rest (c :: acc)]
    simp

theorem joinNL_ne_nil (L : List (List Char)) (hne : L ≠ [])
    (hlast : L.getLast? ≠ some []) : joinNL L ≠ [] := by
  induction L using joinNL.induct with
  | case1 => exact absurd rfl hne
  | case2 l =>
    intro h
    rw [joinNL] at h
    subst h
    simp at hlast
  | case3 l l2 rest ih =>
    intro h
    rw [joinNL] at h
    rcases List.append_eq_nil.mp h with ⟨_, h2⟩
    cases h2

theorem joinNL_not_endsWithNL (L : List (List Char))
    (hbf : ∀ l ∈ L, ∀ c ∈ l, isLineBreak c = false)
    (hne : L ≠ []) (hlast : L.getLast? ≠ some []) :
    endsWithNL (joinNL L) = false := by
  induction L using joinNL.induct with
  | case1 => exact absurd rfl hne
  | case2 l =>
    rw [joinNL]
    simp only [endsWithNL, decide_eq_false_iff_not]
    intro h
    have hmem := List.mem_of_getLast?_eq_some h
    have h2 := hbf l (List.mem_cons_self l []) '\n' hmem
    simp [isLineBreak] at h2
  | case3 l l2 rest ih =>
    rw [joinNL]
    have hlast2 : (l2 :: rest).getLast? ≠ some [] := by
      rwa [List.getLast?_cons_cons] at hlast
    have hj : joinNL (l2 :: rest) ≠ [] :=
      joinNL_ne_nil (l2 :: rest) (by simp) hlast2
    have hbf2 : ∀ x ∈ l2 :: rest, ∀ c ∈ x, isLineBreak c = false :=
      fun x hx => hbf x (List.mem_cons_of_mem l hx)
    have ih2 := ih hbf2 (by simp) hlast2
    rcases hj2 : (joinNL (l2 :: rest)).getLast? with _ | z
    · exact absurd (List.getLast?_eq_none_iff.mp hj2) hj
    · have hgl : (l ++ '\n' :: joinNL (l2 :: rest)).getLast? = some z := by
        rw [List.getLast?_append,
          show ('\n' :: joinNL (l2 :: rest)) = ['\n'] ++ joinNL (l2 :: rest) from rfl,
          List.getLast?_append, hj2]
        rfl
      have hz : z ≠ '\n' := by
        simp only [endsWithNL, decide_eq_false_iff_not] at ih2
        intro h
        exact ih2 (by rw [hj2, h])
      simp only [endsWithNL, hgl, decide_eq_false_iff_not]
      intro h
      exact hz (by simpa using h)

theorem pySplitlines_joinNL (L : List (List Char))
    (hbf : ∀ l ∈ L, ∀ c ∈ l, isLineBreak c = false)
    (hne : L ≠ []) (hlast : L.getLast? ≠ some []) :
    pySplitlines (joinNL L) = L := by
  induction L using joinNL.induct with
  | case1 => exact absurd rfl hne
  | case2 l =>
    have hlne : l ≠ [] := by simpa using hlast
    rw [joinNL]
    unfold pySplitlines
    have h := pySplitlinesAux_append l (hbf l (by simp)) [] []
    rw [List.append_nil] at h
    rw [h, pySplitlinesAux_nil]
    simp [hlne]
  | case3 l l2 rest ih =>
    have hlast2 : (l2 :: rest).getLast? ≠ some [] := by
      rwa [List.getLast?_cons_cons] at hlast
    have hbf2 : ∀ x ∈ l2 :: rest, ∀ c ∈ x, isLineBreak c = false :=
      fun x hx => hbf x (List.mem_cons_of_mem l hx)
    rw [joinNL]
    unfold pySplitlines
    rw [pySplitlinesAux_append l (hbf l (by simp)) ('\n' :: joinNL (l2 :: rest)) [],
      pySplitlinesAux_cons_newline]
    have ih2 := ih hbf2 (by simp) hlast2
    unfold pySplitlines at ih2
    rw [ih2]
    simp

theorem pySplitlines_joinNL_newline (L : List (List Char))
    (hbf : ∀ l ∈ L, ∀ c ∈ l, isLineBreak c = false)
    (hne : L ≠ []) (hlast : L.getLast? ≠ some []) :
    pySplitlines (joinNL L ++ ['\n']) = L := by
  induction L using joinNL.induct with
  | case1 => exact absurd rfl hne
  | case2 l =>
    rw [joinNL]
    unfold pySplitlines
    rw [pySplitlinesAux_append l (hbf l (by simp)) ['\n'] [],
      pySplitlinesAux_cons_newline]
    simp [pySplitlinesAux_nil]
  | case3 l l2 rest ih =>
    have hlast2 : (l2 :: rest).getLast? ≠ some [] := by
      rwa [List.getLast?_cons_cons] at hlast
    have hbf2 : ∀ x ∈ l2 :: rest, ∀ c ∈ x, isLineBreak c = false :=
      fun x hx => hbf x (List.mem_cons_of_mem l hx)
    have hgoal : joinNL (l :: l2 :: rest) ++ ['\n'] =
        l ++ '\n' :: (joinNL (l2 :: rest) ++ ['\n']) := by
      rw [joinNL]
      simp
    rw [hgoal]
    unfold pySplitlines
    rw [pySplitlinesAux_append l (hbf l (by simp))
        ('\n' :: (joinNL (l2 :: rest) ++ ['\n'])) [],
      pySplitlinesAux_cons_newline]
    have ih2 := ih hbf2 (by simp) hlast2
    unfold pySplitlines at ih2
    rw [ih2]
    simp

theorem dropWhile_idem (p : Char → Bool) (l : List Char) :
    List.dropWhile p (List.dropWhile p l) = List.dropWhile p l := by
  induction l with
  | nil => rfl
  | cons c t ih =>
    by_cases h : p c
    · simp [List.dropWhile_cons, h, ih]
    · simp [List.dropWhile_cons, h]

theorem pyLstrip_idem (l : List Char) : pyLstrip (pyLstrip l) = pyLstrip l :=
  dropWhile_idem _ l

theorem pyStrip_pyLstrip (l : List Char) : pyStrip (pyLstrip l) = pyStrip l := by
  unfold pyStrip
  rw [pyLstrip_idem]

theorem mem_pyLstrip (l : List Char) : ∀ c ∈ pyLstrip l, c ∈ l :=
  fun c hc => (List.dropWhile_sublist _).subset hc

theorem mem_trimIfMeta (l : List Char) : ∀ c ∈ trimIfMeta l, c ∈ l := by
  intro c hc
  unfold trimIfMeta at hc
  by_cases h : isMetaLine (pyLstrip l) = true
  · rw [if_pos h] at hc
    exact mem_pyLstrip l c hc
  · rw [if_neg h] at hc
    exact hc

theorem trimIfMeta_idem (l : List Char) :
    trimIfMeta (trimIfMeta l) = trimIfMeta l := by
  unfold trimIfMeta
  by_cases h : isMetaLine (pyLstrip l) = true
  · rw [if_pos h, pyLstrip_idem, if_pos h]
  · rw [if_neg h, if_neg h]

theorem isFence_trimIfMeta (l : List Char) :
    isFenceLine (trimIfMeta l) = isFenceLine l := by
  unfold trimIfMeta
  by_cases h : isMetaLine (pyLstrip l) = true
  · rw [if_pos h]
    unfold isFenceLine
    rw [pyStrip_pyLstrip]
  · rw [if_neg h]

theorem processLines_mem :
    ∀ (L : List (List Char)), ∀ x ∈ processLines L, ∃ l ∈ L, x = trimIfMeta l := by
  intro L
  induction L using processLines.induct with
  | case1 => simp [processLines]
  | case2 l =>
    intro x hx
    rw [processLines] at hx
    simp at hx
    exact ⟨l, by simp, hx⟩
  | case3 l l2 rest h ih =>
    intro x hx
    rw [processLines, if_pos h] at hx
    obtain ⟨y, hy, hxy⟩ := ih x hx
    exact ⟨y, List.mem_cons_of_mem l (List.mem_cons_of_mem l2 hy), hxy⟩
  | case4 l l2 rest h ih =>
    intro x hx
    rw [processLines, if_neg h] at hx
    rcases List.mem_cons.mp hx with rfl | hx
    · exact ⟨l, by simp, rfl⟩
    · obtain ⟨y, hy, hxy⟩ := ih x hx
      exact ⟨y, List.mem_cons_of_mem l hy, hxy⟩

theorem processLines_fixed :
    ∀ (L : List (List Char)), (∀ l ∈ L, trimIfMeta l = l) →
      hasAdjPair L = false → processLines L = L := by
  intro L
  induction L using processLines.induct with
  | case1 => intro _ _; rfl
  | case2 l =>
    intro ht _
    rw [processLines, ht l (by simp)]
  | case3 l l2 rest h ih =>
    intro ht hp
    rw [hasAdjPair] at hp
    simp [h.1, h.2] at hp
  | case4 l l2 rest h ih =>
    intro ht hp
    rw [hasAdjPair] at hp
    simp only [Bool.or_eq_false_iff] at hp
    rw [processLines, if_neg h, ht l (by simp),
      ih (fun x hx => ht x (List.mem_cons_of_mem l hx)) hp.2]

theorem preprocess_second_pass (L : List (List Char))
    (hbf : ∀ l ∈ L, ∀ c ∈ l, isLineBreak c = false)
    (hfence : ∀ l ∈ L, isFenceLine l = false)
    (htrim : ∀ l ∈ L, trimIfMeta l = l)
    (hpair : hasAdjPair L = false)
    (hne : L ≠ []) (hlast : L.getLast? ≠ some []) :
    preprocess_diff (joinNL L) = joinNL L ∧
    preprocess_diff (joinNL L ++ ['\n']) = joinNL L ++ ['\n'] := by
  have hnoNL : endsWithNL (joinNL L) = false := joinNL_not_endsWithNL L hbf hne hlast
  have hfilter : (pySplitlines (joinNL L)).filter (fun x => ! isFenceLine x) = L := by
    rw [pySplitlines_joinNL L hbf hne hlast]
    exact List.filter_eq_self.mpr (fun a ha => by simp [hfence a ha])
  have hfilter2 :
      (pySplitlines (joinNL L ++ ['\n'])).filter (fun x => ! isFenceLine x) = L := by
    rw [pySplitlines_joinNL_newline L hbf hne hlast]
    exact List.filter_eq_self.mpr (fun a ha => by simp [hfence a ha])
  constructor
  · simp only [preprocess_diff, fenceFiltered]
    rw [hfilter, processLines_fixed L htrim hpair]
    simp [hnoNL]
  · simp only [preprocess_diff, fenceFiltered]
    rw [hfilter2, processLines_fixed L htrim hpair]
    have hend : endsWithNL (joinNL L ++ ['\n']) = true := by
      simp [endsWithNL, List.getLast?_concat]
    simp [hend, hnoNL]

theorem preprocess_diff_fixed (d : List Char)
    (hpair : hasAdjPair (processLines (fenceFiltered d)) = false)
    (hlast : (processLines (fenceFiltered d)).getLast? ≠ some []) :
    preprocess_diff (preprocess_diff d) = preprocess_diff d := by
  have hbf0 : ∀ l ∈ fenceFiltered d, ∀ c ∈ l, isLineBreak c = false := by
    intro l hl
    exact pySplitlinesAux_breakFree d [] (by simp) l (List.mem_filter.mp hl).1
  have hbfL : ∀ l ∈ processLines (fenceFiltered d), ∀ c ∈ l, isLineBreak c = false := by
    intro l hl c hc
    obtain ⟨y, hy, rfl⟩ := processLines_mem _ l hl
    exact hbf0 y hy c (mem_trimIfMeta y c hc)
  have hfence : ∀ l ∈ processLines (fenceFiltered d), isFenceLine l = false := by
    intro l hl
    obtain ⟨y, hy, rfl⟩ := processLines_mem _ l hl
    rw [isFence_trimIfMeta]
    have h2 := (List.mem_filter.mp hy).2
    simpa using h2
  have htrim : ∀ l ∈ processLines (fenceFiltered d), trimIfMeta l = l := by
    intro l hl
    obtain ⟨y, _, rfl⟩ := processLines_mem _ l hl
    exact trimIfMeta_idem y
  by_cases hL : processLines (fenceFiltered d) = []
  · have h1 : preprocess_diff d = if endsWithNL d = true then ['\n'] else [] := by
      simp only [preprocess_diff]
      rw [hL]
      by_cases hd : endsWithNL d = true <;> simp [joinNL, endsWithNL, hd]
    rw [h1]
    by_cases hd : endsWithNL d = true
    · rw [if_pos hd]
      decide
    · rw [if_neg hd]
      decide
  · have hsp := preprocess_second_pass (processLines (fenceFiltered d))
      hbfL hfence htrim hpair hL hlast
    have h1 : preprocess_diff d = if endsWithNL d = true
        then joinNL (processLines (fenceFiltered d)) ++ ['\n']
        else joinNL (processLines (fenceFiltered d)) := by
      have hnoNL := joinNL_not_endsWithNL _ hbfL hL hlast
      simp only [preprocess_diff]
      by_cases hd : endsWithNL d = true <;> simp [hd, hnoNL]
    rw [h1]
    by_cases hd : endsWithNL d = true
    · rw [if_pos hd]
      exact hsp.2
    · rw [if_neg hd]
      exact hsp.1

/-- C3, counterexample: normalize is not idempotent.  A second pass can
delete a header pair that the first pass merely left-trimmed, and a
trailing blank line is dropped once per pass. -/
theorem preprocess_diff_idempotence_cex :
    preprocess_diffS (preprocess_diffS "  --- a/f\n  +++ b/f") ≠
      preprocess_diffS "  --- a/f\n  +++ b/f" ∧
    preprocess_diffS (preprocess_diffS "a\n\n\n") ≠ preprocess_diffS "a\n\n\n" :=
  ⟨by decide, by decide⟩

/-- C3 amended: normalize(normalize(x)) = normalize(x) for every x whose
first-pass cleaned line sequence contains no adjacent unindented
remove-file / add-file header pair and does not end with an empty line;
without these side conditions idempotence fails, because left-trimming
can expose a deletable header pair to the second pass, and a trailing
blank line is consumed one per pass. -/
theorem preprocess_diff_idempotent_amended (x : String)
    (hpair : hasAdjPair (processLines (fenceFiltered x.data)) = false)
    (hlast : (processLines (fenceFiltered x.data)).getLast? ≠ some []) :
    preprocess_diffS (preprocess_diffS x) = preprocess_diffS x := by
  show String.mk (preprocess_diff (preprocess_diff x.data)) =
    String.mk (preprocess_diff x.data)
  rw [preprocess_diff_fixed x.data hpair hlast]

theorem preprocess_diff_idempotent_amended_witness :
    hasAdjPair (processLines (fenceFiltered
      ("```diff\n--- a/f\n+++ b/f\n  @@ -1,1 +1,1 @@\n-a\n+b\n```").data)) = false ∧
    preprocess_diffS "```diff\n--- a/f\n+++ b/f\n  @@ -1,1 +1,1 @@\n-a\n+b\n```" =
      "@@ -1,1 +1,1 @@\n-a\n+b" ∧
    preprocess_diffS (preprocess_diffS
        "```diff\n--- a/f\n+++ b/f\n  @@ -1,1 +1,1 @@\n-a\n+b\n```") =
      preprocess_diffS "```diff\n--- a/f\n+++ b/f\n  @@ -1,1 +1,1 @@\n-a\n+b\n```" :=
  ⟨by decide, by decide,
    preprocess_diff_idempotent_amended _ (by decide) (by decide)⟩

theorem remHeaderB_addHeaderB_incompatible (l : List Char)
    (h1 : remHeaderB l = true) (h2 : addHeaderB l = true) : False := by
  cases l with
  | nil => exact absurd h1 (by decide)
  | cons c t =>
    simp only [remHeaderB, Bool.and_eq_true] at h1
    simp only [addHeaderB, Bool.and_eq_true] at h2
    have e1 := h1.1
    have e2 := h2.1
    simp only [List.isPrefixOf, Bool.and_eq_true, beq_iff_eq] at e1 e2
    exact absurd (e1.1.trans e2.1.symm) (by decide)

theorem processLinesIdx_map_snd :
    ∀ (xs : List (Nat × List Char)),
      processLines (xs.map Prod.snd) = (processLinesIdx xs).map Prod.snd := by
  intro xs
  induction xs using processLinesIdx.induct with
  | case1 => rfl
  | case2 i l => rfl
  | case3 i l j l2 rest h ih =>
    simp only [List.map_cons]
    rw [processLines, if_pos h, processLinesIdx, if_pos h]
    simpa using ih
  | case4 i l j l2 rest h ih =>
    simp only [List.map_cons]
    rw [processLines, if_neg h, processLinesIdx, if_neg h]
    simp only [List.map_cons] at ih ⊢
    rw [ih]

theorem processLinesIdx_fst_sub :
    ∀ (xs : List (Nat × List Char)) (p : Nat × List Char),
      p ∈ processLinesIdx xs → p.1 ∈ xs.map Prod.fst := by
  intro xs
  induction xs using processLinesIdx.induct with
  | case1 =>
    intro p hp
    simp [processLinesIdx] at hp
  | case2 i l =>
    intro p hp
    rw [processLinesIdx] at hp
    simp at hp
    simp [hp]
  | case3 i l j l2 rest h ih =>
    intro p hp
    rw [processLinesIdx, if_pos h] at hp
    have h2 := ih p hp
    simp only [List.map_cons]
    exact List.mem_cons_of_mem _ (List.mem_cons_of_mem _ h2)
  | case4 i l j l2 rest h ih =>
    intro p hp
    rw [processLinesIdx, if_neg h] at hp
    rcases List.mem_cons.mp hp with rfl | hp
    · simp
    · have h2 := ih p hp
      simp only [List.map_cons] at h2 ⊢
      exact List.mem_cons_of_mem _ h2

theorem processLinesIdx_pair_deleted :
    ∀ (xs ys zs : List (Nat × List Char)) (i j : Nat) (l l2 : List Char),
      xs = ys ++ (i, l) :: (j, l2) :: zs →
      remHeaderB l = true → addHeaderB l2 = true →
      (xs.map Prod.fst).Nodup →
      i ∉ (processLinesIdx xs).map Prod.fst ∧
      j ∉ (processLinesIdx xs).map Prod.fst := by
  intro xs
  induction xs using processLinesIdx.induct with
  | case1 =>
    intro ys zs i j l l2 heq hrem hadd hnodup
    exact absurd heq.symm (by simp)
  | case2 i0 l0 =>
    intro ys zs i j l l2 heq hrem hadd hnodup
    have hlen := congrArg List.length heq
    simp at hlen
    omega
  | case3 i0 l0 j0 l20 rest h ih =>
    intro ys zs i j l l2 heq hrem hadd hnodup
    rw [processLinesIdx, if_pos h]
    cases ys with
    | nil =>
      simp only [List.nil_append, List.cons.injEq, Prod.mk.injEq] at heq
      obtain ⟨⟨rfl, rfl⟩, ⟨rfl, rfl⟩, rfl⟩ := heq
      simp only [List.map_cons, List.nodup_cons, List.mem_cons] at hnodup
      constructor <;> intro hmem
      · rcases List.mem_map.mp hmem with ⟨p, hp, hpeq⟩
        have h2 := processLinesIdx_fst_sub rest p hp
        rw [hpeq] at h2
        exact hnodup.1 (Or.inr h2)
      · rcases List.mem_map.mp hmem with ⟨p, hp, hpeq⟩
        have h2 := processLinesIdx_fst_sub rest p hp
        rw [hpeq] at h2
        exact hnodup.2.1 h2
    | cons y ys2 =>
      rw [List.cons_append, List.cons.injEq] at heq
      obtain ⟨rfl, heq2⟩ := heq
      cases ys2 with
      | nil =>
        simp only [List.nil_append, List.cons.injEq, Prod.mk.injEq] at heq2
        obtain ⟨⟨rfl, rfl⟩, rfl⟩ := heq2
        exact (remHeaderB_addHeaderB_incompatible _ hrem h.2).elim
      | cons y2 ys3 =>
        rw [List.cons_append, List.cons.injEq] at heq2
        obtain ⟨rfl, heq3⟩ := heq2
        have hnd : (rest.map Prod.fst).Nodup := by
          simp only [List.map_cons, List.nodup_cons] at hnodup
          exact hnodup.2.2
        exact ih ys3 zs i j l l2 heq3 hrem hadd hnd
  | case4 i0 l0 j0 l20 rest h ih =>
    intro ys zs i j l l2 heq hrem hadd hnodup
    rw [processLinesIdx, if_neg h]
    cases ys with
    | nil =>
      simp only [List.nil_append, List.cons.injEq, Prod.mk.injEq] at heq
      obtain ⟨⟨rfl, rfl⟩, ⟨rfl, rfl⟩, rfl⟩ := heq
      exact (h ⟨hrem, hadd⟩).elim
    | cons y ys2 =>
      rw [List.cons_append, List.cons.injEq] at heq
      obtain ⟨rfl, heq2⟩ := heq
      have hndtail : (((j0, l20) :: rest).map Prod.fst).Nodup := by
        simp only [List.map_cons, List.nodup_cons] at hnodup ⊢
        exact ⟨hnodup.2.1, hnodup.2.2⟩
      have hih := ih ys2 zs i j l l2 heq2 hrem hadd hndtail
      have hi_mem : i ∈ ((j0, l20) :: rest).map Prod.fst := by
        rw [heq2]
        simp only [List.map_append, List.map_cons]
        exact List.mem_append.mpr (Or.inr (by simp))
      have hj_mem : j ∈ ((j0, l20) :: rest).map Prod.fst := by
        rw [heq2]
        simp only [List.map_append, List.map_cons]
        exact List.mem_append.mpr (Or.inr (by simp))
      have hhead : i0 ∉ ((j0, l20) :: rest).map Prod.fst := by
        simp only [List.map_cons, List.nodup_cons] at hnodup
        simpa using hnodup.1
      constructor <;> intro hmem
      · simp only [List.map_cons, List.mem_cons] at hmem
        rcases hmem with h2 | h2
        · exact hhead (h2 ▸ hi_mem)
        · exact hih.1 h2
      · simp only [List.map_cons, List.mem_cons] at hmem
        rcases hmem with h2 | h2
        · exact hhead (h2 ▸ hj_mem)
        · exact hih.2 h2

/-- C4, counterexample: an adjacent remove-file / add-file header pair
that shares (identical, non-empty) leading whitespace is NOT deleted by
a single normalize call; the two lines survive, merely left-trimmed. -/
theorem header_pair_deletion_cex :
    preprocess_diffS "  --- a/x\n  +++ b/x" = "--- a/x\n+++ b/x" ∧
    preprocess_diffS "  --- a/x\n  +++ b/x" ≠ "" :=
  ⟨by decide, by decide⟩

/-- C4 amended: in a single normalize call, after fence-line removal,
every adjacent pair in which line i is an unindented remove-file header
(three dashes, a space, a non-whitespace character) and line i+1 an
unindented add-file header has both occurrences deleted: neither
position survives into the output of the index-carrying run, whose
projection is exactly processLines.  Indented pairs are instead
left-trimmed, not deleted. -/
theorem header_pair_deletion_amended (x : String) (L1 L2 : List (List Char))
    (l l2 : List Char)
    (hsplit : fenceFiltered x.data = L1 ++ l :: l2 :: L2)
    (hrem : remHeaderB l = true) (hadd : addHeaderB l2 = true) :
    L1.length ∉ (processLinesIdx ((fenceFiltered x.data).enum)).map Prod.fst ∧
    L1.length + 1 ∉ (processLinesIdx ((fenceFiltered x.data).enum)).map Prod.fst ∧
    processLines (fenceFiltered x.data) =
      (processLinesIdx ((fenceFiltered x.data).enum)).map Prod.snd := by
  have hlink : processLines (fenceFiltered x.data) =
      (processLinesIdx ((fenceFiltered x.data).enum)).map Prod.snd := by
    have h := processLinesIdx_map_snd ((fenceFiltered x.data).enum)
    rwa [show ((fenceFiltered x.data).enum).map Prod.snd = fenceFiltered x.data
      from List.enumFrom_map_snd 0 _] at h
  have henum : (fenceFiltered x.data).enum =
      L1.enum ++ (L1.length, l) :: (L1.length + 1, l2) ::
        List.enumFrom (L1.length + 2) L2 := by
    rw [show (fenceFiltered x.data).enum = List.enumFrom 0 (fenceFiltered x.data)
        from rfl,
      hsplit, List.enumFrom_append]
    simp [List.enumFrom_cons, List.enum]
  have hnodup : (((fenceFiltered x.data).enum).map Prod.fst).Nodup := by
    rw [show (fenceFiltered x.data).enum = List.enumFrom 0 (fenceFiltered x.data)
        from rfl,
      List.enumFrom_map_fst, ← List.range_eq_range']
    exact List.nodup_range _
  have hmain := processLinesIdx_pair_deleted ((fenceFiltered x.data).enum)
    L1.enum (List.enumFrom (L1.length + 2) L2) L1.length (L1.length + 1) l l2
    henum hrem hadd hnodup
  exact ⟨hmain.1, hmain.2, hlink⟩

theorem header_pair_deletion_amended_witness :
    (0 : Nat) ∉
      (processLinesIdx ((fenceFiltered ("--- a/x\n+++ b/x").data).enum)).map
        Prod.fst ∧
    (1 : Nat) ∉
      (processLinesIdx ((fenceFiltered ("--- a/x\n+++ b/x").data).enum)).map
        Prod.fst := by
  have h := header_pair_deletion_amended "--- a/x\n+++ b/x" [] []
    ("--- a/x").data ("+++ b/x").data (by decide) (by decide) (by decide)
  exact ⟨by simpa using h.1, by simpa using h.2.1⟩

end Brainbase
